import Mathlib

/-!
Shallow embedding of the `bench` Go package (an HTTP load-testing tool) and
proofs of the specification claims about it.

Modelling conventions:
* Go `float64` values are modelled as exact rationals (`ℚ`); the float
  literals `0.5`, `0.9`, `0.99` become the rationals `1/2`, `9/10`, `99/100`.
* Go `int` values are modelled as `ℤ` (no claim involves 64-bit overflow).
* Go runtime panics (slice index out of range) are modelled by the
  `Except GoPanic` layer; Go `error` return values are modelled by `GoError`
  values inside that layer.
* `io.Writer` arguments are modelled by `Option Unit` (`none` models a nil
  writer); log output itself has no modelled effect.
* The HTTP client, mutexes, channels and wall-clock time are not data: a
  worker's interaction with the network is modelled by a script of
  `CallOutcome`s, one per work token the worker receives.
-/

namespace Bench

/-! ### Characters and digit strings -/

/-- The character for a single decimal digit `d < 10`. -/
def digitChar (d : ℕ) : Char := Char.ofNat (48 + d)

/-- Go's `'0' <= c && c <= '9'` test used by `strconv`. -/
def isDigitChar (c : Char) : Bool := 48 ≤ c.toNat && c.toNat ≤ 57

/-- Numeric value of a digit character. -/
def charVal (c : Char) : ℕ := c.toNat - 48

/-- Fuel-driven digit printer (the fuel makes the recursion structural, so
that terms evaluate inside the kernel; any fuel above the number works). -/
def natDigitsAux : ℕ → ℕ → List Char
  | 0, _ => []
  | fuel + 1, n =>
    if n < 10 then [digitChar n]
    else natDigitsAux fuel (n / 10) ++ [digitChar (n % 10)]

/-- Decimal digits of a natural number, most significant first
(the digits Go's `%d` verb prints for a non-negative value). -/
def natDigits (n : ℕ) : List Char := natDigitsAux (n + 1) n

/-- Accumulating decimal parser over a digit string. -/
def parseDigitsAux : ℕ → List Char → Option ℕ
  | acc, [] => some acc
  | acc, c :: cs =>
    if isDigitChar c then parseDigitsAux (acc * 10 + charVal c) cs else none

/-- Parse a non-empty all-digit string to a natural number. -/
def parseDigits (l : List Char) : Option ℕ :=
  match l with
  | [] => none
  | _ :: _ => parseDigitsAux 0 l

/-- Go's `strings.Split(s, sep)` for a one-character separator. -/
def splitOnChar (sep : Char) : List Char → List (List Char)
  | [] => [[]]
  | c :: cs =>
    if c = sep then [] :: splitOnChar sep cs
    else
      match splitOnChar sep cs with
      | [] => [[c]]
      | h :: t => (c :: h) :: t

/-- Go's `bufio.dropCR`: remove one trailing carriage return. -/
def dropCR (l : List Char) : List Char :=
  if l.getLast? = some '\r' then l.dropLast else l

/-- The tokens produced by a `bufio.Scanner` with the default `ScanLines`
split function: lines separated by a newline, each stripped of a trailing
carriage return, with no empty token for a trailing newline. -/
def goLines (l : List Char) : List (List Char) :=
  let ps := splitOnChar '\n' l
  let ps := if ps.getLast? = some [] then ps.dropLast else ps
  ps.map dropCR

/-! ### Errors and panics -/

/-- Go runtime panics that this code can raise. -/
inductive GoPanic where
  | indexOutOfRange
deriving DecidableEq, Repr

/-- The Go `error` values produced by the package: the package-level
sentinel errors, the `fmt.Errorf` values built in `NewTester`, the
`strconv` parse errors, and `os.Open` failures. -/
inductive GoError where
  | errNoArgs
  | errNoURL
  | errTimeNotRecorded
  | errValueCannotBeNil
  | errInvalidURL (u : String)
  | errInvalidRequests (n : ℤ)
  | errURLParse (s : String)
  | errParseInt (s : String)
  | errParseFloat (s : String)
  | errOpen (path : String)
deriving DecidableEq, Repr

/-! ### Numeric formatting and parsing (`fmt` / `strconv`) -/

/-- Go's `%d` verb on an `int`. -/
def goFormatInt (n : ℤ) : List Char :=
  if n < 0 then '-' :: natDigits (-n).toNat else natDigits n.toNat

/-- Go's `strconv.Atoi`: optional sign followed by one or more digits.
The `int` range check is not modelled (counts are modelled as `ℤ`). -/
def goAtoi (l : List Char) : Except GoError ℤ :=
  match l with
  | [] => .error (.errParseInt "")
  | c :: rest =>
    if c = '+' then
      match parseDigits rest with
      | some n => .ok (n : ℤ)
      | none => .error (.errParseInt (String.mk l))
    else if c = '-' then
      match parseDigits rest with
      | some n => .ok (-(n : ℤ))
      | none => .error (.errParseInt (String.mk l))
    else
      match parseDigits l with
      | some n => .ok (n : ℤ)
      | none => .error (.errParseInt (String.mk l))

/-- Magnitude part of a plain decimal float: digits, optionally split by one
point with digits on both sides.  (Exponent, hex and inf/nan forms accepted
by Go's `strconv.ParseFloat` are never produced by this program's `%.3f`
encoder and are not modelled.) -/
def parseFloatMag (l : List Char) : Option ℚ :=
  match splitOnChar '.' l with
  | [ip] => (parseDigits ip).map (fun n => (n : ℚ))
  | [ip, fp] =>
    match parseDigits ip, parseDigits fp with
    | some a, some b => some ((a : ℚ) + (b : ℚ) / (10 : ℚ) ^ fp.length)
    | _, _ => none
  | _ => none

/-- Go's `strconv.ParseFloat` on the decimal forms relevant here. -/
def goParseFloat (l : List Char) : Except GoError ℚ :=
  match l with
  | [] => .error (.errParseFloat "")
  | c :: rest =>
    if c = '+' then
      match parseFloatMag rest with
      | some q => .ok q
      | none => .error (.errParseFloat (String.mk l))
    else if c = '-' then
      match parseFloatMag rest with
      | some q => .ok (-q)
      | none => .error (.errParseFloat (String.mk l))
    else
      match parseFloatMag l with
      | some q => .ok q
      | none => .error (.errParseFloat (String.mk l))

/-- Round to the nearest integer, ties to even (the rounding Go's `strconv`
applies when formatting; a tie never arises for a binary float, so the
tie-break is unobservable on values a `float64` can hold). -/
def roundEven (x : ℚ) : ℤ :=
  if Int.fract x = 1/2 then (if ⌊x⌋ % 2 = 0 then ⌊x⌋ else ⌊x⌋ + 1) else round x

/-- Left-pad a digit string with zeros to width `k`. -/
def padZeros (k : ℕ) (l : List Char) : List Char :=
  List.replicate (k - l.length) '0' ++ l

/-- Go's `%.3f` on a non-negative value: integer part, point, exactly three
fractional digits. -/
def goFormat3Mag (q : ℚ) : List Char :=
  let m := (roundEven (q * 1000)).toNat
  natDigits (m / 1000) ++ '.' :: padZeros 3 (natDigits (m % 1000))

/-- Go's `%.3f` verb. -/
def goFormat3 (q : ℚ) : List Char :=
  if q < 0 then '-' :: goFormat3Mag (-q) else goFormat3Mag q

/-- Go's `math.Round`: nearest integer, ties away from zero. -/
def goRound (x : ℚ) : ℤ :=
  if 0 ≤ x then ⌊x + 1/2⌋ else ⌈x - 1/2⌉

/-- Go slice indexing with a non-negative index: the value, or an
index-out-of-range panic. -/
def goSliceGet {α : Type} (l : List α) (i : ℕ) : Except GoPanic α :=
  match l.get? i with
  | some v => .ok v
  | none => .error .indexOutOfRange

/-- Go slice indexing with an `int` index (negative indices panic). -/
def goSliceGetInt (l : List ℚ) (i : ℤ) : Except GoPanic ℚ :=
  if 0 ≤ i then
    match l.get? i.toNat with
    | some v => .ok v
    | none => .error .indexOutOfRange
  else .error .indexOutOfRange

/-! ### Data model (`Stats`, `StatsDelta`, `TimeRecorder`, `Tester`) -/

/-- The aggregate record of one benchmark run. -/
structure Stats where
  URL : String
  Mean : ℚ
  P50 : ℚ
  P90 : ℚ
  P99 : ℚ
  Failures : ℤ
  Requests : ℤ
  Successes : ℤ
deriving DecidableEq, Repr

/-- Field-wise difference of two `Stats` records. -/
structure StatsDelta where
  P50 : ℚ
  P90 : ℚ
  P99 : ℚ
  Requests : ℤ
  Failures : ℤ
  Successes : ℤ
deriving DecidableEq, Repr

/-- The Go zero value `Stats{}`. -/
def statsZero : Stats :=
  { URL := "", Mean := 0, P50 := 0, P90 := 0, P99 := 0,
    Failures := 0, Requests := 0, Successes := 0 }

/-- The Go zero value `StatsDelta{}`. -/
def statsDeltaZero : StatsDelta :=
  { P50 := 0, P90 := 0, P99 := 0, Requests := 0, Failures := 0, Successes := 0 }

/-- The latency recorder: `mu` is a synchronization handle with no data
content, so only the sample list is modelled. -/
structure TimeRecorder where
  ExecutionsTime : List ℚ
deriving DecidableEq, Repr

/-- The tester.  The HTTP client, wait group, mutex, work channel and the
start/end timestamps are runtime handles without modelled data content and
are omitted; `stdout`/`stderr` keep only their nil-ness (`none` = nil). -/
structure Tester where
  Concurrency : ℤ
  ExportStats : Bool
  Graphs : Bool
  OutputPath : String
  requests : ℤ
  stdout : Option Unit
  stderr : Option Unit
  URL : String
  userAgent : String
  stats : Stats
  TimeRecorder : TimeRecorder
deriving DecidableEq, Repr

/-- The tester literal built at the top of `NewTester`, before any option
is applied. -/
def defaultTester : Tester :=
  { Concurrency := 1
    ExportStats := false
    Graphs := false
    OutputPath := "./"
    requests := 1
    stdout := some ()
    stderr := some ()
    URL := ""
    userAgent := "Bench 0.0.1 Alpha"
    stats := statsZero
    TimeRecorder := ⟨[]⟩ }

/-- The functional-option type (source name `Option`, renamed here because
Lean reserves that identifier for its core optional type). -/
def OptionFn : Type := Tester → Except GoError Tester

def WithRequests (reqs : ℤ) : OptionFn := fun t => .ok { t with requests := reqs }

def WithHTTPUserAgent (userAgent : String) : OptionFn :=
  fun t => .ok { t with userAgent := userAgent }

def WithStdout (w : Option Unit) : OptionFn := fun t =>
  if w = none then .error .errValueCannotBeNil else .ok { t with stdout := w }

def WithStderr (w : Option Unit) : OptionFn := fun t =>
  if w = none then .error .errValueCannotBeNil else .ok { t with stderr := w }

def WithConcurrency (c : ℤ) : OptionFn := fun t => .ok { t with Concurrency := c }

def WithURL (u : String) : OptionFn := fun t => .ok { t with URL := u }

def WithOutputPath (outputPath : String) : OptionFn :=
  fun t => .ok { t with OutputPath := outputPath }

def WithGraphs (graphs : Bool) : OptionFn := fun t => .ok { t with Graphs := graphs }

def WithExportStats (exportStats : Bool) : OptionFn :=
  fun t => .ok { t with ExportStats := exportStats }

/-- The option-application loop at the start of `NewTester`: apply each
option in order, returning the first error. -/
def applyOptions : List OptionFn → Tester → Except GoError Tester
  | [], t => .ok t
  | o :: rest, t =>
    match o t with
    | .error e => .error e
    | .ok t2 => applyOptions rest t2

/-! ### URL parsing (the `net/url` collaborator) -/

/-- The parsed URL; only the host is read by this package. -/
structure URL where
  host : String
deriving DecidableEq, Repr

/-- The remainder of the string after the first `://` separator, if any. -/
def afterSchemeSep : List Char → Option (List Char)
  | ':' :: '/' :: '/' :: rest => some rest
  | _ :: rest => afterSchemeSep rest
  | [] => none

/-- A character that ends the host component. -/
def hostEnd (c : Char) : Bool := c = '/' || c = '?' || c = '#'

/-- Host component: the text between `://` and the next delimiter. -/
def extractHost (l : List Char) : List Char :=
  match afterSchemeSep l with
  | none => []
  | some rest => rest.takeWhile (fun c => !hostEnd c)

/-- An ASCII control character (rejected by Go's URL parser). -/
def isCtl (c : Char) : Bool := c.toNat < 32 || c.toNat == 127

/-- Model of the Go standard library's `url.Parse` (an external
collaborator, not part of this repository): it fails on control characters
and otherwise yields a host that is empty unless the string has a
`scheme://host` authority. -/
def urlParse (s : String) : Except GoError URL :=
  if s.data.any isCtl then .error (.errURLParse s)
  else .ok ⟨String.mk (extractHost s.data)⟩

/-! ### Construction (`NewTester`) -/

/-- `NewTester`: apply the options in order (each may fail), then check URL
presence, then URL parse and non-empty host, then the request-count bound.
(The work channel it allocates is a runtime handle and is not modelled.) -/
def NewTester (opts : List OptionFn) : Except GoError Tester :=
  match applyOptions opts defaultTester with
  | .error e => .error e
  | .ok t =>
    if t.URL = "" then .error .errNoURL
    else
      match urlParse t.URL with
      | .error e => .error e
      | .ok u =>
        if u.host = "" then .error (.errInvalidURL t.URL)
        else if t.requests < 1 then .error (.errInvalidRequests t.requests)
        else .ok t

/-! ### Counters and the latency recorder -/

def RecordRequest (t : Tester) : Tester :=
  { t with stats := { t.stats with Requests := t.stats.Requests + 1 } }

def RecordSuccess (t : Tester) : Tester :=
  { t with stats := { t.stats with Successes := t.stats.Successes + 1 } }

def RecordFailure (t : Tester) : Tester :=
  { t with stats := { t.stats with Failures := t.stats.Failures + 1 } }

/-- `TimeRecorder.RecordTime`: append one latency sample (in ms). -/
def RecordTime (t : Tester) (executionTime : ℚ) : Tester :=
  { t with TimeRecorder := ⟨t.TimeRecorder.ExecutionsTime ++ [executionTime]⟩ }

/-! ### The worker loop (`DoRequest`) -/

/-- The outcome of one HTTP call attempt, as seen by a worker: the request
build step may fail, the transport may fail, or a response with some status
code arrives after a measured elapsed time (in ms). -/
inductive CallOutcome where
  | buildErr
  | transportErr
  | resp (status : ℤ) (elapsed : ℚ)
deriving DecidableEq, Repr

/-- `DoRequest`, one worker's loop over the tokens it receives from the
work channel.  The script lists, token by token, what the network would do
for this worker's successive calls; an early `return` in the source is the
non-recursive branches here, which drop the rest of the script. -/
def doRequest (t : Tester) : List CallOutcome → Tester
  | [] => t
  | o :: rest =>
    let t1 := RecordRequest t
    match o with
    | .buildErr => RecordFailure t1
    | .transportErr => RecordFailure t1
    | .resp status elapsed =>
      let t2 := RecordTime t1 elapsed
      if status ≠ 200 then RecordFailure t2
      else doRequest (RecordSuccess t2) rest

/-- A call outcome the worker loop survives: a response with status 200. -/
def isSuccess : CallOutcome → Bool
  | .resp status _ => status == 200
  | _ => false

/-- The prefix of a script a worker actually executes: every call up to and
including the first non-200 outcome. -/
def executedCalls : List CallOutcome → List CallOutcome
  | [] => []
  | o :: rest => if isSuccess o then o :: executedCalls rest else [o]

/-- The latency sample a call outcome contributes: the elapsed time when
the transport completed (any status), nothing otherwise. -/
def recordedSample : CallOutcome → Option ℚ
  | .resp _ elapsed => some elapsed
  | _ => none

/-! ### Metrics (`SetMetrics`) -/

/-- `SetMetrics`: on an empty recorder return `ErrTimeNotRecorded` having
changed nothing; otherwise sort the samples ascending (the Go code sorts
the slice in place), pick the three percentiles at index
`round(n*p) - 1`, and set the mean to the accumulated total over the
count.  Result: the updated tester and the Go error value, under the panic
layer for the slice indexing. -/
def SetMetrics (t : Tester) : Except GoPanic (Tester × Option GoError) :=
  let times := t.TimeRecorder.ExecutionsTime
  if times.length < 1 then .ok (t, some .errTimeNotRecorded)
  else
    let sorted := times.insertionSort (· ≤ ·)
    let n : ℚ := (sorted.length : ℚ)
    match goSliceGetInt sorted (goRound (n * (1/2)) - 1) with
    | .error p => .error p
    | .ok p50 =>
    match goSliceGetInt sorted (goRound (n * (9/10)) - 1) with
    | .error p => .error p
    | .ok p90 =>
    match goSliceGetInt sorted (goRound (n * (99/100)) - 1) with
    | .error p => .error p
    | .ok p99 =>
      let nreq : ℚ := sorted.foldl (fun a _ => a + 1) 0
      let totalTime : ℚ := sorted.foldl (· + ·) 0
      .ok ({ t with
              TimeRecorder := ⟨sorted⟩
              stats := { t.stats with
                          P50 := p50, P90 := p90, P99 := p99,
                          URL := t.URL, Mean := totalTime / nreq } }, none)

/-! ### The orchestrator (`Run`) -/

/-- `Run`: the pool phase drains all work tokens through the workers (one
script per worker; the counter interleaving across workers commutes, so
the final state is the fold), then `SetMetrics` runs and its error, if
any, is returned to the caller.  Graph rendering, the stats-file export
and the report printing are I/O against excluded collaborators and are
modelled as no-ops; wall-clock timing is not modelled. -/
def Run (t : Tester) (scripts : List (List CallOutcome)) :
    Except GoPanic (Tester × Option GoError) :=
  let t1 := scripts.foldl doRequest t
  match SetMetrics t1 with
  | .error p => .error p
  | .ok (t2, some e) => .ok (t2, some e)
  | .ok (t2, none) => .ok (t2, none)

/-! ### Stats codec (`WriteStatsFile` / `ReadStatsFile`) -/

/-- The characters `WriteStatsFile` emits:
`url,requests,successes,failures,p50,p90,p99` with `%d` counts and `%.3f`
percentiles. -/
def writeChars (stats : Stats) : List Char :=
  stats.URL.data
    ++ ',' :: goFormatInt stats.Requests
    ++ ',' :: goFormatInt stats.Successes
    ++ ',' :: goFormatInt stats.Failures
    ++ ',' :: goFormat3 stats.P50
    ++ ',' :: goFormat3 stats.P90
    ++ ',' :: goFormat3 stats.P99

/-- `WriteStatsFile`: the single line written to the writer. -/
def WriteStatsFile (stats : Stats) : String := String.mk (writeChars stats)

/-- The body of the scanner loop in `ReadStatsFile` for one line: split on
commas, then read fields 0-6 in order (each numbered access can panic when
the field is missing), parsing the counts with `Atoi` and the percentiles
with `ParseFloat`; a parse failure is returned as the function's error. -/
def parseLine (line : List Char) : Except GoPanic (Except GoError Stats) :=
  let pos := splitOnChar ',' line
  match goSliceGet pos 0 with
  | .error p => .error p
  | .ok url =>
  match goSliceGet pos 1 with
  | .error p => .error p
  | .ok dataRequests =>
  match goAtoi dataRequests with
  | .error e => .ok (.error e)
  | .ok requests =>
  match goSliceGet pos 2 with
  | .error p => .error p
  | .ok dataSuccesses =>
  match goAtoi dataSuccesses with
  | .error e => .ok (.error e)
  | .ok successes =>
  match goSliceGet pos 3 with
  | .error p => .error p
  | .ok dataFailures =>
  match goAtoi dataFailures with
  | .error e => .ok (.error e)
  | .ok failures =>
  match goSliceGet pos 4 with
  | .error p => .error p
  | .ok dataP50 =>
  match goParseFloat dataP50 with
  | .error e => .ok (.error e)
  | .ok p50 =>
  match goSliceGet pos 5 with
  | .error p => .error p
  | .ok dataP90 =>
  match goParseFloat dataP90 with
  | .error e => .ok (.error e)
  | .ok p90 =>
  match goSliceGet pos 6 with
  | .error p => .error p
  | .ok dataP99 =>
  match goParseFloat dataP99 with
  | .error e => .ok (.error e)
  | .ok p99 =>
    .ok (.ok { URL := String.mk url, Mean := 0,
               P50 := p50, P90 := p90, P99 := p99,
               Failures := failures, Requests := requests,
               Successes := successes })

/-- The scanner loop of `ReadStatsFile`: parse each line in order,
returning on the first parse error (or propagating a panic), and collect
the records. -/
def readLines : List (List Char) → Except GoPanic (Except GoError (List Stats))
  | [] => .ok (.ok [])
  | line :: rest =>
    match parseLine line with
    | .error p => .error p
    | .ok (.error e) => .ok (.error e)
    | .ok (.ok st) =>
      match readLines rest with
      | .error p => .error p
      | .ok (.error e) => .ok (.error e)
      | .ok (.ok sts) => .ok (.ok (st :: sts))

/-- `ReadStatsFile` on the full contents of the reader. -/
def ReadStatsFile (input : String) : Except GoPanic (Except GoError (List Stats)) :=
  readLines (goLines input.data)

/-! ### Comparison (`CompareStats` / `CompareStatsFiles`) -/

/-- `CompareStats`: field-wise second-minus-first difference. -/
def CompareStats (stats1 stats2 : Stats) : StatsDelta :=
  { P50 := stats2.P50 - stats1.P50
    P90 := stats2.P90 - stats1.P90
    P99 := stats2.P99 - stats1.P99
    Requests := stats2.Requests - stats1.Requests
    Successes := stats2.Successes - stats1.Successes
    Failures := stats2.Failures - stats1.Failures }

/-- `CompareStatsFiles` over a pure file system (`fs path` is the file's
contents, `none` when opening fails).  Faithful to the source: it opens
`path1`, reads it and discards the result (a panic in that read still
propagates), then opens `path1` a second time (not `path2`), reads
nothing from it, and returns the zero delta. -/
def CompareStatsFiles (fs : String → Option String) (path1 path2 : String) :
    Except GoPanic (StatsDelta × Option GoError) :=
  match fs path1 with
  | none => .ok (statsDeltaZero, some (.errOpen path1))
  | some content1 =>
    match ReadStatsFile content1 with
    | .error p => .error p
    | .ok _ =>
      match fs path1 with
      | none => .ok (statsDeltaZero, some (.errOpen path1))
      | some _ => .ok (statsDeltaZero, none)

/-- The `requests == successes + failures` invariant on a tester's stats. -/
def statsInv (t : Tester) : Prop :=
  t.stats.Requests = t.stats.Successes + t.stats.Failures

/-- A tester whose recorder already holds the specification's example
samples (as after seven successful calls with those latencies). -/
def sampleRecorderTester : Tester :=
  { defaultTester with TimeRecorder := ⟨[5, 6, 7, 8, 10, 11, 13]⟩ }

/-- A concrete well-formed stats record (the values the repository's own
tests use), used as a round-trip witness. -/
def sampleStats : Stats :=
  { URL := "u", Mean := 0, P50 := 100123 / 1000, P90 := 150,
    P99 := 198465 / 1000, Failures := 2, Requests := 20, Successes := 18 }

/-- A stats record with a non-zero mean and all other numeric fields 0. -/
def meanOneStats : Stats :=
  { URL := "u", Mean := 1, P50 := 0, P90 := 0, P99 := 0,
    Failures := 0, Requests := 0, Successes := 0 }

/-- The mean-zero twin of `meanOneStats`. -/
def meanZeroStats : Stats :=
  { URL := "u", Mean := 0, P50 := 0, P90 := 0, P99 := 0,
    Failures := 0, Requests := 0, Successes := 0 }

/-! ## Helper lemmas: the worker loop -/

theorem recordRequest_fields (t : Tester) :
    (RecordRequest t).stats.Requests = t.stats.Requests + 1 ∧
      (RecordRequest t).stats.Successes = t.stats.Successes ∧
      (RecordRequest t).stats.Failures = t.stats.Failures ∧
      (RecordRequest t).TimeRecorder = t.TimeRecorder := by
  simp [RecordRequest]

theorem recordSuccess_fields (t : Tester) :
    (RecordSuccess t).stats.Requests = t.stats.Requests ∧
      (RecordSuccess t).stats.Successes = t.stats.Successes + 1 ∧
      (RecordSuccess t).stats.Failures = t.stats.Failures ∧
      (RecordSuccess t).TimeRecorder = t.TimeRecorder := by
  simp [RecordSuccess]

theorem recordFailure_fields (t : Tester) :
    (RecordFailure t).stats.Requests = t.stats.Requests ∧
      (RecordFailure t).stats.Successes = t.stats.Successes ∧
      (RecordFailure t).stats.Failures = t.stats.Failures + 1 ∧
      (RecordFailure t).TimeRecorder = t.TimeRecorder := by
  simp [RecordFailure]

theorem recordTime_fields (t : Tester) (e : ℚ) :
    (RecordTime t e).stats = t.stats ∧
      (RecordTime t e).TimeRecorder.ExecutionsTime
        = t.TimeRecorder.ExecutionsTime ++ [e] := by
  simp [RecordTime]

theorem doRequest_cons_success (t : Tester) (e : ℚ) (rest : List CallOutcome) :
    doRequest t (.resp 200 e :: rest)
      = doRequest (RecordSuccess (RecordTime (RecordRequest t) e)) rest := by
  simp [doRequest]

theorem doRequest_cons_failure (t : Tester) (o : CallOutcome)
    (rest : List CallOutcome) (h : isSuccess o = false) :
    doRequest t (o :: rest)
      = match o with
        | .resp _ e => RecordFailure (RecordTime (RecordRequest t) e)
        | _ => RecordFailure (RecordRequest t) := by
  cases o with
  | buildErr => simp [doRequest]
  | transportErr => simp [doRequest]
  | resp status e =>
    have hst : status ≠ 200 := by
      intro hc; subst hc; simp [isSuccess] at h
    simp [doRequest, hst]

theorem isSuccess_resp_200 (e : ℚ) : isSuccess (.resp 200 e) = true := by
  simp [isSuccess]

theorem success_shape (o : CallOutcome) (h : isSuccess o = true) :
    ∃ e, o = .resp 200 e := by
  cases o with
  | buildErr => simp [isSuccess] at h
  | transportErr => simp [isSuccess] at h
  | resp status e =>
    simp [isSuccess] at h
    exact ⟨e, by rw [h]⟩

theorem executedCalls_cons_success (o : CallOutcome) (rest : List CallOutcome)
    (h : isSuccess o = true) : executedCalls (o :: rest) = o :: executedCalls rest := by
  simp [executedCalls, h]

theorem executedCalls_cons_failure (o : CallOutcome) (rest : List CallOutcome)
    (h : isSuccess o = false) : executedCalls (o :: rest) = [o] := by
  simp [executedCalls, h]

theorem doRequest_stats_counts (t : Tester) (script : List CallOutcome) :
    (doRequest t script).stats.Requests
        = t.stats.Requests + ((executedCalls script).length : ℤ) ∧
      (doRequest t script).stats.Successes
        = t.stats.Successes + (((executedCalls script).filter isSuccess).length : ℤ) ∧
      (doRequest t script).stats.Failures
        = t.stats.Failures
            + (((executedCalls script).filter (fun o => !isSuccess o)).length : ℤ) := by
  induction script generalizing t with
  | nil => simp [doRequest, executedCalls]
  | cons o rest ih =>
    by_cases hs : isSuccess o = true
    · obtain ⟨e, rfl⟩ := success_shape o hs
      rw [doRequest_cons_success, executedCalls_cons_success _ _ hs]
      have ih' := ih (RecordSuccess (RecordTime (RecordRequest t) e))
      rw [List.filter_cons_of_pos hs,
        List.filter_cons_of_neg (by simp [hs])]
      refine ⟨?_, ?_, ?_⟩
      · rw [ih'.1, (recordSuccess_fields _).1, (recordTime_fields _ _).1,
          (recordRequest_fields _).1]
        simp only [List.length_cons]; push_cast; omega
      · rw [ih'.2.1, (recordSuccess_fields _).2.1, (recordTime_fields _ _).1,
          (recordRequest_fields _).2.1]
        simp only [List.length_cons]; push_cast; omega
      · rw [ih'.2.2, (recordSuccess_fields _).2.2.1, (recordTime_fields _ _).1,
          (recordRequest_fields _).2.2.1]
    · have hs' : isSuccess o = false := by revert hs; cases isSuccess o <;> simp
      rw [doRequest_cons_failure _ _ _ hs', executedCalls_cons_failure _ _ hs']
      rw [List.filter_cons_of_neg (by simp [hs']),
        List.filter_cons_of_pos (by simp [hs'])]
      cases o with
      | buildErr => simp [RecordFailure, RecordRequest]
      | transportErr => simp [RecordFailure, RecordRequest]
      | resp status e => simp [RecordFailure, RecordTime, RecordRequest]

theorem doRequest_recorder (t : Tester) (script : List CallOutcome) :
    (doRequest t script).TimeRecorder.ExecutionsTime
      = t.TimeRecorder.ExecutionsTime
          ++ (executedCalls script).filterMap recordedSample := by
  induction script generalizing t with
  | nil => simp [doRequest, executedCalls]
  | cons o rest ih =>
    by_cases hs : isSuccess o = true
    · obtain ⟨e, rfl⟩ := success_shape o hs
      rw [doRequest_cons_success, executedCalls_cons_success _ _ hs]
      rw [ih (RecordSuccess (RecordTime (RecordRequest t) e)),
        (recordSuccess_fields _).2.2.2, (recordTime_fields _ _).2,
        (recordRequest_fields _).2.2.2]
      simp [recordedSample]
    · have hs' : isSuccess o = false := by revert hs; cases isSuccess o <;> simp
      rw [doRequest_cons_failure _ _ _ hs', executedCalls_cons_failure _ _ hs']
      cases o with
      | buildErr =>
        simp [recordedSample, RecordFailure, RecordRequest]
      | transportErr =>
        simp [recordedSample, RecordFailure, RecordRequest]
      | resp status e =>
        simp [recordedSample, RecordFailure, RecordTime, RecordRequest]

theorem doRequest_preserves_inv (t : Tester) (script : List CallOutcome)
    (h : statsInv t) : statsInv (doRequest t script) := by
  have hc := doRequest_stats_counts t script
  unfold statsInv at h ⊢
  rw [hc.1, hc.2.1, hc.2.2, h]
  have hsplit :=
    List.length_eq_length_filter_add (l := executedCalls script) isSuccess
  push_cast [hsplit]
  ring

theorem foldl_doRequest_preserves_inv (t : Tester)
    (scripts : List (List CallOutcome)) (h : statsInv t) :
    statsInv (scripts.foldl doRequest t) := by
  induction scripts generalizing t with
  | nil => exact h
  | cons s rest ih => exact ih _ (doRequest_preserves_inv t s h)

theorem executedCalls_of_all_success (script : List CallOutcome)
    (h : ∀ o ∈ script, isSuccess o = true) : executedCalls script = script := by
  induction script with
  | nil => rfl
  | cons o rest ih =>
    rw [executedCalls_cons_success o rest (h o (List.mem_cons_self o rest)),
      ih (fun o' ho' => h o' (List.mem_cons_of_mem _ ho'))]

theorem setMetrics_empty (t : Tester)
    (h : t.TimeRecorder.ExecutionsTime = []) :
    SetMetrics t = .ok (t, some .errTimeNotRecorded) := by
  unfold SetMetrics
  rw [h]
  simp

/-! ## Claim C3 -/

/-- C3, counterexample: the claim says a call with a non-200 status
contributes no latency sample, but on a single call that completes with
status 418 the recorder gains the elapsed sample `5` even though the call
is classified as a failure. -/
theorem latency_non200_counterexample :
    (doRequest defaultTester [.resp 418 5]).TimeRecorder.ExecutionsTime = [5]
      ∧ (doRequest defaultTester [.resp 418 5]).stats.Failures = 1
      ∧ (doRequest defaultTester [.resp 418 5]).stats.Successes = 0 := by
  refine ⟨rfl, rfl, rfl⟩

/-- C3 (amended): a latency sample is appended exactly for the calls whose
transport completes (any status code): the recorder after a worker's loop
is the old samples followed by the elapsed times of the executed calls
that produced a response, so the recorder stays empty only when no call
ever completes at transport level. -/
theorem recorder_appends_on_transport_complete (t : Tester)
    (script : List CallOutcome) :
    (doRequest t script).TimeRecorder.ExecutionsTime
      = t.TimeRecorder.ExecutionsTime
          ++ (executedCalls script).filterMap recordedSample :=
  doRequest_recorder t script

/-! ## Claim C4 -/

/-- C4: the `requests == successes + failures` invariant holds after any
sequence of per-call outcomes processed by any number of workers, given it
held at the start (each call increments the attempt counter and then
exactly one of the success or failure counters). -/
theorem requests_eq_successes_add_failures (t : Tester)
    (scripts : List (List CallOutcome)) (h : statsInv t) :
    statsInv (scripts.foldl doRequest t) :=
  foldl_doRequest_preserves_inv t scripts h

/-- Witness for C4 at a concrete tester and scripts. -/
theorem requests_eq_successes_add_failures_witness :
    statsInv defaultTester
      ∧ statsInv ([[CallOutcome.resp 200 5, CallOutcome.transportErr],
                   [CallOutcome.buildErr]].foldl doRequest defaultTester) :=
  ⟨by unfold statsInv; decide,
    requests_eq_successes_add_failures defaultTester
      [[CallOutcome.resp 200 5, CallOutcome.transportErr],
       [CallOutcome.buildErr]] (by unfold statsInv; decide)⟩

/-! ## Claim C5 -/

/-- C5: when the pool phase leaves the recorder empty, `SetMetrics` fails
with `ErrTimeNotRecorded`, leaving the tester (in particular its stats
record's percentile and mean fields) unchanged, and `Run` surfaces that
same error to its caller. -/
theorem empty_recorder_errTimeNotRecorded (t : Tester)
    (scripts : List (List CallOutcome))
    (h : (scripts.foldl doRequest t).TimeRecorder.ExecutionsTime = []) :
    SetMetrics (scripts.foldl doRequest t)
        = .ok (scripts.foldl doRequest t, some .errTimeNotRecorded)
      ∧ Run t scripts
        = .ok (scripts.foldl doRequest t, some .errTimeNotRecorded) := by
  have hm := setMetrics_empty _ h
  refine ⟨hm, ?_⟩
  simp only [Run, hm]

/-- Witness for C5: one worker whose only call fails at transport level
records no sample, and the run reports `ErrTimeNotRecorded`. -/
theorem empty_recorder_errTimeNotRecorded_witness :
    ([[CallOutcome.transportErr]].foldl doRequest
        defaultTester).TimeRecorder.ExecutionsTime = []
      ∧ (SetMetrics ([[CallOutcome.transportErr]].foldl doRequest defaultTester)
            = .ok ([[CallOutcome.transportErr]].foldl doRequest defaultTester,
                some .errTimeNotRecorded)
          ∧ Run defaultTester [[CallOutcome.transportErr]]
            = .ok ([[CallOutcome.transportErr]].foldl doRequest defaultTester,
                some .errTimeNotRecorded)) :=
  ⟨rfl, empty_recorder_errTimeNotRecorded defaultTester
    [[CallOutcome.transportErr]] rfl⟩

/-! ## Claim C6 -/

/-- C6: evaluation of `ReadStatsFile` at the failing input: a line with a
missing field (here the single line `x`, which has no commas) makes the
code panic with an index-out-of-range error instead of returning the
malformed-record error the specification promises. -/
theorem readStatsFile_short_line_panics :
    ReadStatsFile "x" = .error .indexOutOfRange := by
  rfl

/-! ## Claim C8 -/

/-- C8: any error outcome (request-build error, transport error or non-200
status) ends the worker's loop at that call: the remaining script is
irrelevant; and a worker whose calls all succeed processes every token,
raising the attempt counter by the full script length. -/
theorem worker_aborts_after_first_failure :
    (∀ (t : Tester) (pre : List CallOutcome) (bad : CallOutcome)
        (rest : List CallOutcome),
        (∀ o ∈ pre, isSuccess o = true) → isSuccess bad = false →
        doRequest t (pre ++ bad :: rest) = doRequest t (pre ++ [bad]))
      ∧ (∀ (t : Tester) (script : List CallOutcome),
          (∀ o ∈ script, isSuccess o = true) →
          (doRequest t script).stats.Requests
            = t.stats.Requests + (script.length : ℤ)) := by
  constructor
  · intro t pre bad rest hpre hbad
    induction pre generalizing t with
    | nil =>
      simp only [List.nil_append]
      rw [doRequest_cons_failure t bad rest hbad,
        doRequest_cons_failure t bad [] hbad]
    | cons o pre ih =>
      obtain ⟨e, rfl⟩ := success_shape o (hpre o (List.mem_cons_self o pre))
      simp only [List.cons_append]
      rw [doRequest_cons_success, doRequest_cons_success]
      exact ih _ (fun o' ho' => hpre o' (List.mem_cons_of_mem _ ho'))
  · intro t script hall
    have := (doRequest_stats_counts t script).1
    rwa [executedCalls_of_all_success script hall] at this

/-- Witness for C8: a worker that succeeds once and then hits a transport
error never reaches the rest of its script. -/
theorem worker_aborts_after_first_failure_witness :
    (∀ o ∈ [CallOutcome.resp 200 1], isSuccess o = true)
      ∧ isSuccess CallOutcome.transportErr = false
      ∧ doRequest defaultTester
            ([CallOutcome.resp 200 1]
              ++ CallOutcome.transportErr :: [CallOutcome.resp 200 2])
          = doRequest defaultTester
              ([CallOutcome.resp 200 1] ++ [CallOutcome.transportErr]) :=
  ⟨by decide, by decide,
    worker_aborts_after_first_failure.1 defaultTester
      [CallOutcome.resp 200 1] CallOutcome.transportErr
      [CallOutcome.resp 200 2] (by decide) (by decide)⟩

/-! ## Claim C9 -/

/-- C9: `CompareStats` returns the field-wise difference, second record
minus first record, in every field of the delta. -/
theorem compareStats_fieldwise_sub (stats1 stats2 : Stats) :
    (CompareStats stats1 stats2).P50 = stats2.P50 - stats1.P50
      ∧ (CompareStats stats1 stats2).P90 = stats2.P90 - stats1.P90
      ∧ (CompareStats stats1 stats2).P99 = stats2.P99 - stats1.P99
      ∧ (CompareStats stats1 stats2).Requests = stats2.Requests - stats1.Requests
      ∧ (CompareStats stats1 stats2).Successes = stats2.Successes - stats1.Successes
      ∧ (CompareStats stats1 stats2).Failures = stats2.Failures - stats1.Failures :=
  ⟨rfl, rfl, rfl, rfl, rfl, rfl⟩

/-! ## Claim C10 -/

/-- C10, counterexample: the claim says the result is the zero delta and a
nil error regardless of the first file's contents, but when the first file
holds the single malformed line `x` the discarded `ReadStatsFile` call
panics and `CompareStatsFiles` does not return at all. -/
theorem compareStatsFiles_panic_counterexample :
    (fun _ => some "x" : String → Option String) "a" = some "x"
      ∧ CompareStatsFiles (fun _ => some "x") "a" "b"
          = .error .indexOutOfRange
      ∧ CompareStatsFiles (fun _ => some "x") "a" "b"
          ≠ .ok (statsDeltaZero, none) := by
  have h1 : CompareStatsFiles (fun _ => some "x") "a" "b"
      = .error .indexOutOfRange := rfl
  exact ⟨rfl, h1, by rw [h1]; exact fun hc => Except.noConfusion hc⟩

/-- C10 (amended): whenever the first path opens and its contents do not
make the discarded `ReadStatsFile` call panic, `CompareStatsFiles` returns
the zero-valued delta and a nil error; and its result never depends on the
second path, which is never opened (the first path is opened twice). -/
theorem compareStatsFiles_second_path_ignored :
    (∀ (fs : String → Option String) (path1 path2 : String) (c : String)
        (r : Except GoError (List Stats)),
        fs path1 = some c → ReadStatsFile c = .ok r →
        CompareStatsFiles fs path1 path2 = .ok (statsDeltaZero, none))
      ∧ ∀ (fs : String → Option String) (path1 path2 path2' : String),
          CompareStatsFiles fs path1 path2 = CompareStatsFiles fs path1 path2' := by
  constructor
  · intro fs path1 path2 c r h1 h2
    simp only [CompareStatsFiles, h1, h2]
  · intro fs path1 path2 path2'
    rfl

/-- Witness for the amended C10 at a concrete file system whose first file
is empty (its read succeeds and is discarded). -/
theorem compareStatsFiles_second_path_ignored_witness :
    (fun _ => some "" : String → Option String) "a" = some ""
      ∧ ReadStatsFile "" = .ok (.ok [])
      ∧ CompareStatsFiles (fun _ => some "") "a" "b"
          = .ok (statsDeltaZero, none) :=
  ⟨rfl, rfl, compareStatsFiles_second_path_ignored.1
    (fun _ => some "") "a" "b" "" (.ok []) rfl rfl⟩

/-! ## Claim C1 -/

theorem goRound_mul_bounds (m : ℕ) (p : ℚ) (hm : 1 ≤ m) (hp1 : 1/2 ≤ p)
    (hp2 : p ≤ 1) : 1 ≤ goRound ((m : ℚ) * p) ∧ goRound ((m : ℚ) * p) ≤ m := by
  have hm' : (1 : ℚ) ≤ (m : ℚ) := by exact_mod_cast hm
  have hx : (0 : ℚ) ≤ (m : ℚ) * p := by nlinarith
  unfold goRound
  rw [if_pos hx]
  constructor
  · rw [Int.le_floor]
    push_cast
    nlinarith
  · have hfl : ⌊(m : ℚ) * p + 1/2⌋ < (m : ℤ) + 1 := by
      rw [Int.floor_lt]
      push_cast
      nlinarith
    omega

theorem goSliceGetInt_ok (l : List ℚ) (i : ℤ) (h0 : 0 ≤ i)
    (h1 : i.toNat < l.length) :
    goSliceGetInt l i = .ok (l.getD i.toNat 0) := by
  unfold goSliceGetInt
  rw [if_pos h0]
  cases hg : l.get? i.toNat with
  | none =>
    have := List.get?_eq_none.mp hg
    omega
  | some v =>
    have hv : l.getD i.toNat 0 = v := by
      rw [List.getD_eq_getElem?_getD, ← List.get?_eq_getElem?, hg]
      rfl
    rw [hv]

theorem foldl_add_eq_sum (l : List ℚ) (a : ℚ) : l.foldl (· + ·) a = a + l.sum := by
  induction l generalizing a with
  | nil => simp
  | cons x xs ih => simp [List.foldl_cons, ih, List.sum_cons]; ring

theorem foldl_count_eq_length (l : List ℚ) (a : ℚ) :
    l.foldl (fun acc _ => acc + 1) a = a + (l.length : ℚ) := by
  induction l generalizing a with
  | nil => simp
  | cons x xs ih => simp [List.foldl_cons, ih]; ring

theorem setMetrics_ok_fields (t : Tester)
    (h : t.TimeRecorder.ExecutionsTime ≠ []) :
    ∃ t' : Tester, SetMetrics t = .ok (t', none)
      ∧ t'.TimeRecorder.ExecutionsTime
          = t.TimeRecorder.ExecutionsTime.insertionSort (· ≤ ·)
      ∧ t'.stats.P50 = (t.TimeRecorder.ExecutionsTime.insertionSort (· ≤ ·)).getD
          (goRound ((t.TimeRecorder.ExecutionsTime.length : ℚ) * (1/2)) - 1).toNat 0
      ∧ t'.stats.P90 = (t.TimeRecorder.ExecutionsTime.insertionSort (· ≤ ·)).getD
          (goRound ((t.TimeRecorder.ExecutionsTime.length : ℚ) * (9/10)) - 1).toNat 0
      ∧ t'.stats.P99 = (t.TimeRecorder.ExecutionsTime.insertionSort (· ≤ ·)).getD
          (goRound ((t.TimeRecorder.ExecutionsTime.length : ℚ) * (99/100)) - 1).toNat 0
      ∧ t'.stats.Mean = t.TimeRecorder.ExecutionsTime.sum
          / (t.TimeRecorder.ExecutionsTime.length : ℚ)
      ∧ t'.stats.URL = t.URL := by
  have h1 : 1 ≤ t.TimeRecorder.ExecutionsTime.length := List.length_pos.mpr h
  simp only [SetMetrics]
  rw [if_neg (by omega : ¬ t.TimeRecorder.ExecutionsTime.length < 1)]
  have hperm : (t.TimeRecorder.ExecutionsTime.insertionSort (· ≤ ·)).Perm
      t.TimeRecorder.ExecutionsTime := List.perm_insertionSort _ _
  have hlen : (t.TimeRecorder.ExecutionsTime.insertionSort (· ≤ ·)).length
      = t.TimeRecorder.ExecutionsTime.length := hperm.length_eq
  rw [hlen]
  have hb50 := goRound_mul_bounds t.TimeRecorder.ExecutionsTime.length (1/2)
    h1 (le_refl _) (by norm_num)
  have hb90 := goRound_mul_bounds t.TimeRecorder.ExecutionsTime.length (9/10)
    h1 (by norm_num) (by norm_num)
  have hb99 := goRound_mul_bounds t.TimeRecorder.ExecutionsTime.length (99/100)
    h1 (by norm_num) (by norm_num)
  rw [goSliceGetInt_ok _ _ (by omega) (by rw [hlen]; omega),
    goSliceGetInt_ok _ _ (by omega) (by rw [hlen]; omega),
    goSliceGetInt_ok _ _ (by omega) (by rw [hlen]; omega)]
  refine ⟨_, rfl, rfl, rfl, rfl, rfl, ?_, rfl⟩
  show (t.TimeRecorder.ExecutionsTime.insertionSort (· ≤ ·)).foldl (· + ·) 0
      / (t.TimeRecorder.ExecutionsTime.insertionSort (· ≤ ·)).foldl
          (fun a _ => a + 1) 0
    = t.TimeRecorder.ExecutionsTime.sum / (t.TimeRecorder.ExecutionsTime.length : ℚ)
  rw [foldl_add_eq_sum, foldl_count_eq_length, zero_add, zero_add,
    hperm.sum_eq, hlen]

/-- C1: on every non-empty sample sequence `SetMetrics` succeeds, sorting
the samples ascending and taking the elements at 0-based index
`round(n*p) - 1` for p in \{0.50, 0.90, 0.99\} as P50/P90/P99, and the
arithmetic mean of all samples as Mean; in particular on
`[5,6,7,8,10,11,13]` it yields P50=8, P90=11, P99=13 (and Mean 60/7). -/
theorem setMetrics_sorts_and_indexes :
    (∀ t : Tester, t.TimeRecorder.ExecutionsTime ≠ [] →
      ∃ t' : Tester, SetMetrics t = .ok (t', none)
        ∧ ∃ sorted : List ℚ,
            sorted.Perm t.TimeRecorder.ExecutionsTime
            ∧ sorted.Sorted (· ≤ ·)
            ∧ t'.stats.P50 = sorted.getD
                (goRound ((t.TimeRecorder.ExecutionsTime.length : ℚ) * (1/2))
                  - 1).toNat 0
            ∧ t'.stats.P90 = sorted.getD
                (goRound ((t.TimeRecorder.ExecutionsTime.length : ℚ) * (9/10))
                  - 1).toNat 0
            ∧ t'.stats.P99 = sorted.getD
                (goRound ((t.TimeRecorder.ExecutionsTime.length : ℚ) * (99/100))
                  - 1).toNat 0
            ∧ t'.stats.Mean = t.TimeRecorder.ExecutionsTime.sum
                / (t.TimeRecorder.ExecutionsTime.length : ℚ))
      ∧ (∀ t : Tester,
          t.TimeRecorder.ExecutionsTime = [5, 6, 7, 8, 10, 11, 13] →
          ∃ t' : Tester, SetMetrics t = .ok (t', none)
            ∧ t'.stats.P50 = 8 ∧ t'.stats.P90 = 11 ∧ t'.stats.P99 = 13
            ∧ t'.stats.Mean = 60 / 7) := by
  constructor
  · intro t h
    obtain ⟨t', heq, _, h50, h90, h99, hmean, _⟩ := setMetrics_ok_fields t h
    exact ⟨t', heq, t.TimeRecorder.ExecutionsTime.insertionSort (· ≤ ·),
      List.perm_insertionSort _ _, List.sorted_insertionSort _ _,
      h50, h90, h99, hmean⟩
  · intro t h
    obtain ⟨t', heq, _, h50, h90, h99, hmean, _⟩ :=
      setMetrics_ok_fields t (by rw [h]; simp)
    rw [h] at h50 h90 h99 hmean
    refine ⟨t', heq, ?_, ?_, ?_, ?_⟩
    · rw [h50]
      norm_num [goRound, List.insertionSort, List.orderedInsert, List.getD]
      rfl
    · rw [h90]
      norm_num [goRound, List.insertionSort, List.orderedInsert, List.getD]
      rfl
    · rw [h99]
      norm_num [goRound, List.insertionSort, List.orderedInsert, List.getD]
      rfl
    · rw [hmean]; norm_num

/-- Witness for C1 at the concrete sample list of the claim. -/
theorem setMetrics_sorts_and_indexes_witness :
    sampleRecorderTester.TimeRecorder.ExecutionsTime = [5, 6, 7, 8, 10, 11, 13]
      ∧ ∃ t' : Tester,
          SetMetrics sampleRecorderTester = .ok (t', none)
            ∧ t'.stats.P50 = 8 ∧ t'.stats.P90 = 11 ∧ t'.stats.P99 = 13
            ∧ t'.stats.Mean = 60 / 7 :=
  ⟨rfl, setMetrics_sorts_and_indexes.2 sampleRecorderTester rfl⟩

/-! ## Claim C2: digit-string machinery -/

theorem natDigitsAux_fuel_irrel :
    ∀ {f g n : ℕ}, n < f → n < g → natDigitsAux f n = natDigitsAux g n := by
  intro f
  induction f with
  | zero => intro g n hf; omega
  | succ f ih =>
    intro g n hf hg
    cases g with
    | zero => omega
    | succ g =>
      show natDigitsAux (f + 1) n = natDigitsAux (g + 1) n
      by_cases h10 : n < 10
      · simp [natDigitsAux, h10]
      · have hrec : n / 10 < n := Nat.div_lt_self (by omega) (by omega)
        simp only [natDigitsAux, if_neg h10]
        rw [@ih g (n / 10) (by omega) (by omega)]

theorem natDigits_step (n : ℕ) :
    natDigits n
      = if n < 10 then [digitChar n]
        else natDigits (n / 10) ++ [digitChar (n % 10)] := by
  by_cases h10 : n < 10
  · simp [natDigits, natDigitsAux, h10]
  · have hrec : n / 10 < n := Nat.div_lt_self (by omega) (by omega)
    show natDigitsAux (n + 1) n = _
    simp only [natDigitsAux, if_neg h10]
    rw [@natDigitsAux_fuel_irrel n (n / 10 + 1) (n / 10) (by omega) (by omega)]
    rfl

theorem isDigitChar_digitChar (d : ℕ) (h : d < 10) :
    isDigitChar (digitChar d) = true := by
  interval_cases d <;> decide

theorem charVal_digitChar (d : ℕ) (h : d < 10) : charVal (digitChar d) = d := by
  interval_cases d <;> decide

theorem natDigits_ne_nil (n : ℕ) : natDigits n ≠ [] := by
  rw [natDigits_step]
  by_cases h10 : n < 10
  · simp [h10]
  · simp [h10]

theorem natDigits_all_digits (n : ℕ) :
    ∀ c ∈ natDigits n, isDigitChar c = true := by
  induction n using Nat.strong_induction_on with
  | _ n ih =>
    rw [natDigits_step]
    by_cases h10 : n < 10
    · simp only [if_pos h10, List.mem_singleton]
      rintro c rfl
      exact isDigitChar_digitChar n h10
    · have hrec : n / 10 < n := Nat.div_lt_self (by omega) (by omega)
      simp only [if_neg h10, List.mem_append, List.mem_singleton]
      rintro c (hc | rfl)
      · exact ih (n / 10) hrec c hc
      · exact isDigitChar_digitChar (n % 10) (Nat.mod_lt n (by omega))

theorem natDigits_length_le (n k : ℕ) (h1 : 1 ≤ k) (h : n < 10 ^ k) :
    (natDigits n).length ≤ k := by
  induction n using Nat.strong_induction_on generalizing k with
  | _ n ih =>
    rw [natDigits_step]
    by_cases h10 : n < 10
    · simp only [if_pos h10, List.length_singleton]
      omega
    · have hrec : n / 10 < n := Nat.div_lt_self (by omega) (by omega)
      have hk2 : 2 ≤ k := by
        by_contra hk
        interval_cases k <;> omega
      have hdiv : n / 10 < 10 ^ (k - 1) := by
        have : n < 10 ^ (k - 1) * 10 := by
          have hpow : 10 ^ (k - 1) * 10 = 10 ^ k := by
            rw [← pow_succ]
            congr 1
            omega
          omega
        omega
      have := ih (n / 10) hrec (k - 1) (by omega) hdiv
      simp only [if_neg h10, List.length_append, List.length_singleton]
      omega

theorem parseDigitsAux_append (acc : ℕ) (xs ys : List Char) :
    parseDigitsAux acc (xs ++ ys)
      = (parseDigitsAux acc xs).bind (fun a => parseDigitsAux a ys) := by
  induction xs generalizing acc with
  | nil => simp [parseDigitsAux]
  | cons c cs ih =>
    by_cases hc : isDigitChar c = true
    · simp [parseDigitsAux, hc, ih]
    · simp [parseDigitsAux, hc]

theorem parseDigitsAux_single (acc : ℕ) (c : Char) (h : isDigitChar c = true) :
    parseDigitsAux acc [c] = some (acc * 10 + charVal c) := by
  simp [parseDigitsAux, h]

theorem parseDigitsAux_natDigits (n : ℕ) :
    ∀ acc : ℕ, parseDigitsAux acc (natDigits n)
      = some (acc * 10 ^ (natDigits n).length + n) := by
  induction n using Nat.strong_induction_on with
  | _ n ih =>
    intro acc
    by_cases h10 : n < 10
    · rw [natDigits_step, if_pos h10]
      rw [parseDigitsAux_single acc _ (isDigitChar_digitChar n h10),
        charVal_digitChar n h10]
      simp
    · have hrec : n / 10 < n := Nat.div_lt_self (by omega) (by omega)
      have hm : n % 10 < 10 := Nat.mod_lt n (by omega)
      rw [natDigits_step, if_neg h10, parseDigitsAux_append,
        ih (n / 10) hrec acc]
      simp only [Option.some_bind]
      rw [parseDigitsAux_single _ _ (isDigitChar_digitChar (n % 10) hm),
        charVal_digitChar (n % 10) hm]
      congr 1
      rw [List.length_append, List.length_singleton, pow_succ]
      ring_nf
      omega

theorem parseDigits_eq_aux (l : List Char) (h : l ≠ []) :
    parseDigits l = parseDigitsAux 0 l := by
  cases l with
  | nil => exact absurd rfl h
  | cons c cs => rfl

theorem parseDigits_natDigits (n : ℕ) : parseDigits (natDigits n) = some n := by
  rw [parseDigits_eq_aux _ (natDigits_ne_nil n), parseDigitsAux_natDigits]
  simp

theorem parseDigitsAux_zeros (j : ℕ) :
    parseDigitsAux 0 (List.replicate j '0') = some 0 := by
  induction j with
  | zero => rfl
  | succ j ih =>
    rw [List.replicate_succ]
    simpa [parseDigitsAux, isDigitChar, charVal] using ih

theorem parseDigits_padZeros (j n : ℕ) :
    parseDigits (List.replicate j '0' ++ natDigits n) = some n := by
  have hne : List.replicate j '0' ++ natDigits n ≠ [] := by
    simp [natDigits_ne_nil n]
  rw [parseDigits_eq_aux _ hne, parseDigitsAux_append, parseDigitsAux_zeros]
  simp [parseDigitsAux_natDigits]

/-! ## Claim C2: formatting and parsing round trips -/

theorem digit_char_classes (c : Char) (h : isDigitChar c = true) :
    c ≠ ',' ∧ c ≠ '\n' ∧ c ≠ '\r' ∧ c ≠ '.' ∧ c ≠ '+' ∧ c ≠ '-' := by
  refine ⟨?_, ?_, ?_, ?_, ?_, ?_⟩ <;>
    (rintro rfl; exact absurd h (by decide))

theorem goAtoi_natDigits (m : ℕ) : goAtoi (natDigits m) = .ok (m : ℤ) := by
  obtain ⟨c, cs, hl⟩ : ∃ c cs, natDigits m = c :: cs := by
    cases hnd : natDigits m with
    | nil => exact absurd hnd (natDigits_ne_nil m)
    | cons c cs => exact ⟨c, cs, rfl⟩
  have hc : isDigitChar c = true :=
    natDigits_all_digits m c (by rw [hl]; exact List.mem_cons_self c cs)
  have hclass := digit_char_classes c hc
  rw [hl]
  show goAtoi (c :: cs) = .ok (m : ℤ)
  simp only [goAtoi]
  rw [if_neg hclass.2.2.2.2.1, if_neg hclass.2.2.2.2.2, ← hl,
    parseDigits_natDigits]

theorem goFormatInt_nonneg (n : ℤ) (h : 0 ≤ n) :
    goFormatInt n = natDigits n.toNat := by
  unfold goFormatInt
  rw [if_neg (by omega)]

theorem goAtoi_goFormatInt (n : ℤ) (h : 0 ≤ n) :
    goAtoi (goFormatInt n) = .ok n := by
  rw [goFormatInt_nonneg n h, goAtoi_natDigits, Int.toNat_of_nonneg h]

theorem goFormat3_thousandths (k : ℕ) :
    goFormat3 ((k : ℚ) / 1000)
      = natDigits (k / 1000) ++ '.' :: padZeros 3 (natDigits (k % 1000)) := by
  unfold goFormat3
  rw [if_neg (not_lt.mpr (by positivity : (0 : ℚ) ≤ (k : ℚ) / 1000))]
  unfold goFormat3Mag
  have h1 : ((k : ℚ) / 1000) * 1000 = (k : ℚ) := by
    field_simp
  rw [h1]
  have h2 : roundEven ((k : ℚ)) = (k : ℤ) := by
    unfold roundEven
    rw [if_neg (by rw [Int.fract_natCast]; norm_num)]
    exact round_natCast k
  rw [h2]
  simp

theorem padZeros_length (k : ℕ) (l : List Char) (h : l.length ≤ k) :
    (padZeros k l).length = k := by
  unfold padZeros
  rw [List.length_append, List.length_replicate]
  omega

theorem padZeros_natDigits_chars (j : ℕ) (n : ℕ) :
    ∀ c ∈ padZeros j (natDigits n), isDigitChar c = true := by
  unfold padZeros
  intro c hc
  rcases List.mem_append.mp hc with hrep | hdig
  · rw [List.eq_of_mem_replicate hrep]
    decide
  · exact natDigits_all_digits n c hdig

theorem goFormat3_thousandths_chars (k : ℕ) :
    ∀ c ∈ goFormat3 ((k : ℚ) / 1000), isDigitChar c = true ∨ c = '.' := by
  rw [goFormat3_thousandths]
  intro c hc
  rcases List.mem_append.mp hc with hdig | hrest
  · exact Or.inl (natDigits_all_digits _ c hdig)
  · rcases List.mem_cons.mp hrest with rfl | hpad
    · exact Or.inr rfl
    · exact Or.inl (padZeros_natDigits_chars 3 _ c hpad)

theorem splitOnChar_not_mem (sep : Char) (l : List Char) (h : sep ∉ l) :
    splitOnChar sep l = [l] := by
  induction l with
  | nil => rfl
  | cons c cs ih =>
    have hc : c ≠ sep := fun hq => h (hq ▸ List.mem_cons_self c cs)
    have hcs : sep ∉ cs := fun hq => h (List.mem_cons_of_mem c hq)
    simp only [splitOnChar, if_neg hc, ih hcs]

theorem splitOnChar_append (sep : Char) (xs ys : List Char) (h : sep ∉ xs) :
    splitOnChar sep (xs ++ sep :: ys) = xs :: splitOnChar sep ys := by
  induction xs with
  | nil => simp [splitOnChar]
  | cons c cs ih =>
    have hc : c ≠ sep := fun hq => h (hq ▸ List.mem_cons_self c cs)
    have hcs : sep ∉ cs := fun hq => h (List.mem_cons_of_mem c hq)
    have hrec := ih hcs
    show splitOnChar sep (c :: (cs ++ sep :: ys)) = (c :: cs) :: splitOnChar sep ys
    simp only [splitOnChar, if_neg hc]
    rw [hrec]

theorem dropCR_not_mem (l : List Char) (h : '\r' ∉ l) : dropCR l = l := by
  unfold dropCR
  split
  · next heq =>
    exfalso
    obtain ⟨hne, hx⟩ := List.mem_getLast?_eq_getLast (Option.mem_def.mpr heq)
    exact h (hx ▸ List.getLast_mem hne)
  · rfl

theorem goLines_single (l : List Char) (hn : '\n' ∉ l) (hr : '\r' ∉ l)
    (hne : l ≠ []) : goLines l = [l] := by
  unfold goLines
  rw [splitOnChar_not_mem _ _ hn]
  have : ([l].getLast? = some []) = False := by
    simp [List.getLast?, hne]
  simp only [List.getLast?_singleton, Option.some.injEq]
  rw [if_neg (by simpa using hne)]
  simp [dropCR_not_mem l hr]

theorem goParseFloat_goFormat3 (k : ℕ) :
    goParseFloat (goFormat3 ((k : ℚ) / 1000)) = .ok ((k : ℚ) / 1000) := by
  rw [goFormat3_thousandths]
  obtain ⟨c, cs, hl⟩ : ∃ c cs, natDigits (k / 1000) = c :: cs := by
    cases hnd : natDigits (k / 1000) with
    | nil => exact absurd hnd (natDigits_ne_nil _)
    | cons c cs => exact ⟨c, cs, rfl⟩
  have hc : isDigitChar c = true :=
    natDigits_all_digits _ c (by rw [hl]; exact List.mem_cons_self c cs)
  have hclass := digit_char_classes c hc
  rw [hl, List.cons_append]
  show goParseFloat (c :: (cs ++ '.' :: padZeros 3 (natDigits (k % 1000))))
    = .ok ((k : ℚ) / 1000)
  simp only [goParseFloat]
  rw [if_neg hclass.2.2.2.2.1, if_neg hclass.2.2.2.2.2]
  have hsplit : splitOnChar '.'
      (c :: (cs ++ '.' :: padZeros 3 (natDigits (k % 1000))))
      = (c :: cs) :: [padZeros 3 (natDigits (k % 1000))] := by
    rw [← List.cons_append, splitOnChar_append]
    · rw [splitOnChar_not_mem]
      intro hdot
      exact (digit_char_classes _ (padZeros_natDigits_chars 3 _ _ hdot)).2.2.2.1 rfl
    · intro hdot
      rw [← hl] at hdot
      exact (digit_char_classes _ (natDigits_all_digits _ _ hdot)).2.2.2.1 rfl
  unfold parseFloatMag
  rw [hsplit, ← hl]
  dsimp only []
  have hlen3 : (padZeros 3 (natDigits (k % 1000))).length = 3 :=
    padZeros_length 3 _ (natDigits_length_le _ 3 (by omega)
      (by have := Nat.mod_lt k (show 0 < 1000 by omega); norm_num; omega))
  have hpad : parseDigits (padZeros 3 (natDigits (k % 1000))) = some (k % 1000) :=
    parseDigits_padZeros _ _
  rw [parseDigits_natDigits, hpad]
  dsimp only []
  have harith : ((k / 1000 : ℕ) : ℚ) + ((k % 1000 : ℕ) : ℚ) / (10 : ℚ) ^ 3
      = (k : ℚ) / 1000 := by
    have hk : 1000 * (k / 1000) + k % 1000 = k := Nat.div_add_mod k 1000
    have hkq : 1000 * ((k / 1000 : ℕ) : ℚ) + ((k % 1000 : ℕ) : ℚ) = (k : ℚ) := by
      exact_mod_cast congrArg Nat.cast hk
    rw [show ((10 : ℚ) ^ 3 = 1000) by norm_num]
    field_simp
    linarith
  rw [hlen3, harith]

/-! ## Claim C2: the encoded line and the round trip -/

theorem comma_not_mem_goFormatInt (n : ℤ) (h : 0 ≤ n) :
    ',' ∉ goFormatInt n := by
  rw [goFormatInt_nonneg n h]
  intro hmem
  exact (digit_char_classes _ (natDigits_all_digits _ _ hmem)).1 rfl

theorem comma_not_mem_goFormat3 (k : ℕ) :
    ',' ∉ goFormat3 ((k : ℚ) / 1000) := by
  intro hmem
  rcases goFormat3_thousandths_chars k _ hmem with hd | hd
  · exact (digit_char_classes _ hd).1 rfl
  · exact absurd hd (by decide)

theorem forall_mem_append_cons {P : Char → Prop} (xs ys : List Char)
    (y : Char) (hxs : ∀ c ∈ xs, P c) (hy : P y) (hys : ∀ c ∈ ys, P c) :
    ∀ c ∈ xs ++ y :: ys, P c := by
  intro c hc
  rcases List.mem_append.mp hc with h | h
  · exact hxs c h
  · rcases List.mem_cons.mp h with rfl | h
    · exact hy
    · exact hys c h

theorem writeChars_mem_class (s : Stats) (hreq : 0 ≤ s.Requests)
    (hsucc : 0 ≤ s.Successes) (hfail : 0 ≤ s.Failures) (k1 k2 k3 : ℕ)
    (h50 : s.P50 = (k1 : ℚ) / 1000) (h90 : s.P90 = (k2 : ℚ) / 1000)
    (h99 : s.P99 = (k3 : ℚ) / 1000) :
    ∀ c ∈ writeChars s,
      c ∈ s.URL.data ∨ isDigitChar c = true ∨ c = '.' ∨ c = ',' := by
  have hint : ∀ (n : ℤ), 0 ≤ n → ∀ c ∈ goFormatInt n,
      c ∈ s.URL.data ∨ isDigitChar c = true ∨ c = '.' ∨ c = ',' := by
    intro n hn c hc
    rw [goFormatInt_nonneg _ hn] at hc
    exact Or.inr (Or.inl (natDigits_all_digits _ _ hc))
  have hflt : ∀ (k : ℕ), ∀ c ∈ goFormat3 ((k : ℚ) / 1000),
      c ∈ s.URL.data ∨ isDigitChar c = true ∨ c = '.' ∨ c = ',' := by
    intro k c hc
    rcases goFormat3_thousandths_chars k c hc with hd | hd
    · exact Or.inr (Or.inl hd)
    · exact Or.inr (Or.inr (Or.inl hd))
  unfold writeChars
  rw [h50, h90, h99]
  simp only [List.append_assoc, List.cons_append]
  refine forall_mem_append_cons _ _ _ (fun c hc => Or.inl hc)
    (Or.inr (Or.inr (Or.inr rfl))) ?_
  refine forall_mem_append_cons _ _ _ (hint _ hreq)
    (Or.inr (Or.inr (Or.inr rfl))) ?_
  refine forall_mem_append_cons _ _ _ (hint _ hsucc)
    (Or.inr (Or.inr (Or.inr rfl))) ?_
  refine forall_mem_append_cons _ _ _ (hint _ hfail)
    (Or.inr (Or.inr (Or.inr rfl))) ?_
  refine forall_mem_append_cons _ _ _ (hflt k1)
    (Or.inr (Or.inr (Or.inr rfl))) ?_
  refine forall_mem_append_cons _ _ _ (hflt k2)
    (Or.inr (Or.inr (Or.inr rfl))) ?_
  exact hflt k3

theorem writeChars_split (s : Stats) (hurl : ',' ∉ s.URL.data)
    (hreq : 0 ≤ s.Requests) (hsucc : 0 ≤ s.Successes) (hfail : 0 ≤ s.Failures)
    (k1 k2 k3 : ℕ) (h50 : s.P50 = (k1 : ℚ) / 1000)
    (h90 : s.P90 = (k2 : ℚ) / 1000) (h99 : s.P99 = (k3 : ℚ) / 1000) :
    splitOnChar ',' (writeChars s)
      = [s.URL.data, goFormatInt s.Requests, goFormatInt s.Successes,
         goFormatInt s.Failures, goFormat3 s.P50, goFormat3 s.P90,
         goFormat3 s.P99] := by
  unfold writeChars
  rw [h50, h90, h99]
  simp only [List.append_assoc, List.cons_append]
  rw [splitOnChar_append _ _ _ hurl,
    splitOnChar_append _ _ _ (comma_not_mem_goFormatInt _ hreq),
    splitOnChar_append _ _ _ (comma_not_mem_goFormatInt _ hsucc),
    splitOnChar_append _ _ _ (comma_not_mem_goFormatInt _ hfail),
    splitOnChar_append _ _ _ (comma_not_mem_goFormat3 k1),
    splitOnChar_append _ _ _ (comma_not_mem_goFormat3 k2),
    splitOnChar_not_mem _ _ (comma_not_mem_goFormat3 k3)]

theorem parseLine_fields (url f1 f2 f3 g1 g2 g3 line : List Char)
    (hsplit : splitOnChar ',' line = [url, f1, f2, f3, g1, g2, g3])
    (n1 n2 n3 : ℤ) (q1 q2 q3 : ℚ)
    (hf1 : goAtoi f1 = .ok n1) (hf2 : goAtoi f2 = .ok n2)
    (hf3 : goAtoi f3 = .ok n3)
    (hg1 : goParseFloat g1 = .ok q1) (hg2 : goParseFloat g2 = .ok q2)
    (hg3 : goParseFloat g3 = .ok q3) :
    parseLine line
      = .ok (.ok { URL := String.mk url, Mean := 0, P50 := q1, P90 := q2,
                   P99 := q3, Failures := n3, Requests := n1,
                   Successes := n2 }) := by
  have e0 : goSliceGet [url, f1, f2, f3, g1, g2, g3] 0 = .ok url := rfl
  have e1 : goSliceGet [url, f1, f2, f3, g1, g2, g3] 1 = .ok f1 := rfl
  have e2 : goSliceGet [url, f1, f2, f3, g1, g2, g3] 2 = .ok f2 := rfl
  have e3 : goSliceGet [url, f1, f2, f3, g1, g2, g3] 3 = .ok f3 := rfl
  have e4 : goSliceGet [url, f1, f2, f3, g1, g2, g3] 4 = .ok g1 := rfl
  have e5 : goSliceGet [url, f1, f2, f3, g1, g2, g3] 5 = .ok g2 := rfl
  have e6 : goSliceGet [url, f1, f2, f3, g1, g2, g3] 6 = .ok g3 := rfl
  unfold parseLine
  rw [hsplit]
  simp only [e0, e1, e2, e3, e4, e5, e6, hf1, hf2, hf3, hg1, hg2, hg3]

theorem readLines_singleton (line : List Char) (st : Stats)
    (h : parseLine line = .ok (.ok st)) : readLines [line] = .ok (.ok [st]) := by
  unfold readLines
  rw [h]
  rfl

theorem roundTrip_core (s : Stats)
    (hurlc : ',' ∉ s.URL.data) (hurln : '\n' ∉ s.URL.data)
    (hurlr : '\r' ∉ s.URL.data) (hmean : s.Mean = 0)
    (hreq : 0 ≤ s.Requests) (hsucc : 0 ≤ s.Successes) (hfail : 0 ≤ s.Failures)
    (h50 : ∃ k : ℕ, s.P50 = (k : ℚ) / 1000)
    (h90 : ∃ k : ℕ, s.P90 = (k : ℚ) / 1000)
    (h99 : ∃ k : ℕ, s.P99 = (k : ℚ) / 1000) :
    ReadStatsFile (WriteStatsFile s) = .ok (.ok [s]) := by
  obtain ⟨k1, h50⟩ := h50
  obtain ⟨k2, h90⟩ := h90
  obtain ⟨k3, h99⟩ := h99
  have hclassify := writeChars_mem_class s hreq hsucc hfail k1 k2 k3 h50 h90 h99
  have hnl : '\n' ∉ writeChars s := by
    intro hmem
    rcases hclassify _ hmem with h | h | h | h
    · exact hurln h
    · exact absurd h (by decide)
    · exact absurd h (by decide)
    · exact absurd h (by decide)
  have hcr : '\r' ∉ writeChars s := by
    intro hmem
    rcases hclassify _ hmem with h | h | h | h
    · exact hurlr h
    · exact absurd h (by decide)
    · exact absurd h (by decide)
    · exact absurd h (by decide)
  have hne : writeChars s ≠ [] := by
    unfold writeChars
    simp
  have hW : (WriteStatsFile s).data = writeChars s := rfl
  have hpl := parseLine_fields s.URL.data (goFormatInt s.Requests)
    (goFormatInt s.Successes) (goFormatInt s.Failures) (goFormat3 s.P50)
    (goFormat3 s.P90) (goFormat3 s.P99) (writeChars s)
    (writeChars_split s hurlc hreq hsucc hfail k1 k2 k3 h50 h90 h99)
    s.Requests s.Successes s.Failures s.P50 s.P90 s.P99
    (goAtoi_goFormatInt _ hreq) (goAtoi_goFormatInt _ hsucc)
    (goAtoi_goFormatInt _ hfail)
    (by rw [h50]; exact goParseFloat_goFormat3 k1)
    (by rw [h90]; exact goParseFloat_goFormat3 k2)
    (by rw [h99]; exact goParseFloat_goFormat3 k3)
  have hrec : ({ URL := String.mk s.URL.data, Mean := 0, P50 := s.P50,
                 P90 := s.P90, P99 := s.P99, Failures := s.Failures,
                 Requests := s.Requests, Successes := s.Successes } : Stats)
      = s := by
    rw [← hmean]
  unfold ReadStatsFile
  rw [hW, goLines_single _ hnl hcr hne, readLines_singleton _ _ hpl, hrec]

/-- C2, counterexample: the Mean field is neither written nor read by the
codec, so a Stats record with non-negative counts and finite fields but a
non-zero mean (Mean 1, every other numeric field 0, URL `u`) does not
survive the round trip: it decodes to its mean-zero twin instead. -/
theorem roundTrip_mean_counterexample :
    ReadStatsFile (WriteStatsFile meanOneStats) = .ok (.ok [meanZeroStats])
      ∧ ReadStatsFile (WriteStatsFile meanOneStats)
          ≠ .ok (.ok [meanOneStats]) := by
  have htwin : ReadStatsFile (WriteStatsFile meanZeroStats)
      = .ok (.ok [meanZeroStats]) :=
    roundTrip_core meanZeroStats (by decide) (by decide) (by decide) rfl
      (by decide) (by decide) (by decide)
      ⟨0, by norm_num [meanZeroStats]⟩ ⟨0, by norm_num [meanZeroStats]⟩
      ⟨0, by norm_num [meanZeroStats]⟩
  have henc : WriteStatsFile meanOneStats = WriteStatsFile meanZeroStats := rfl
  rw [henc, htwin]
  refine ⟨rfl, ?_⟩
  intro hc
  simp only [Except.ok.injEq, List.cons.injEq, and_true] at hc
  have hmeanEq : (0 : ℚ) = 1 := congrArg Stats.Mean hc
  exact absurd hmeanEq (by norm_num)

/-- C2 (amended): the round trip `decode(encode(s)) = [s]` holds for every
Stats record whose URL contains no comma, newline or carriage return,
whose Mean is zero (the codec neither writes nor reads the mean), whose
counts are non-negative, and whose percentile fields are non-negative
exact multiples of 0.001 (the `%.3f` encoding is lossy on anything
finer). -/
theorem roundTrip_amended (s : Stats)
    (hurlc : ',' ∉ s.URL.data) (hurln : '\n' ∉ s.URL.data)
    (hurlr : '\r' ∉ s.URL.data) (hmean : s.Mean = 0)
    (hreq : 0 ≤ s.Requests) (hsucc : 0 ≤ s.Successes) (hfail : 0 ≤ s.Failures)
    (h50 : ∃ k : ℕ, s.P50 = (k : ℚ) / 1000)
    (h90 : ∃ k : ℕ, s.P90 = (k : ℚ) / 1000)
    (h99 : ∃ k : ℕ, s.P99 = (k : ℚ) / 1000) :
    ReadStatsFile (WriteStatsFile s) = .ok (.ok [s]) :=
  roundTrip_core s hurlc hurln hurlr hmean hreq hsucc hfail h50 h90 h99

/-- Witness for the amended C2 at a concrete record: URL `u`, counts
20/18/2, percentiles 100.123 / 150.000 / 198.465, Mean 0. -/
theorem roundTrip_amended_witness :
    (',' ∉ sampleStats.URL.data ∧ '\n' ∉ sampleStats.URL.data
        ∧ '\r' ∉ sampleStats.URL.data ∧ sampleStats.Mean = 0
        ∧ 0 ≤ sampleStats.Requests ∧ 0 ≤ sampleStats.Successes
        ∧ 0 ≤ sampleStats.Failures)
      ∧ ReadStatsFile (WriteStatsFile sampleStats) = .ok (.ok [sampleStats]) :=
  ⟨⟨by decide, by decide, by decide, rfl, by decide, by decide, by decide⟩,
    roundTrip_amended sampleStats (by decide) (by decide) (by decide) rfl
      (by decide) (by decide) (by decide)
      ⟨100123, by norm_num [sampleStats]⟩
      ⟨150000, by norm_num [sampleStats]⟩
      ⟨198465, by norm_num [sampleStats]⟩⟩


/-! ## Claim C7 -/

/-- C7, counterexample: the claim puts the non-nil writer checks last, but
with no URL configured and a nil stdout writer `NewTester` reports the
nil-writer error, not the missing-URL error the claimed order would give:
the writer checks run during option application, before any URL check. -/
theorem newTester_nil_writer_first_counterexample :
    NewTester [WithStdout none] = .error .errValueCannotBeNil
      ∧ GoError.errValueCannotBeNil ≠ GoError.errNoURL :=
  ⟨rfl, by decide⟩

/-- C7 (amended): the nil-writer checks run while the options are applied,
in option order and before any other validation; after the options succeed
the constructor checks URL presence, then URL parse, then non-empty host,
then the request-count bound, and construction succeeds only on a fully
valid configuration (no request is modelled as part of construction). -/
theorem newTester_validation_order :
    (∀ rest : List OptionFn,
        NewTester (WithStdout none :: rest) = .error .errValueCannotBeNil
          ∧ NewTester (WithStderr none :: rest) = .error .errValueCannotBeNil)
      ∧ (∀ (opts : List OptionFn) (t : Tester),
          applyOptions opts defaultTester = .ok t → t.URL = "" →
          NewTester opts = .error .errNoURL)
      ∧ (∀ (opts : List OptionFn) (t : Tester) (e : GoError),
          applyOptions opts defaultTester = .ok t → t.URL ≠ "" →
          urlParse t.URL = .error e → NewTester opts = .error e)
      ∧ (∀ (opts : List OptionFn) (t : Tester) (u : URL),
          applyOptions opts defaultTester = .ok t → t.URL ≠ "" →
          urlParse t.URL = .ok u → u.host = "" →
          NewTester opts = .error (.errInvalidURL t.URL))
      ∧ (∀ (opts : List OptionFn) (t : Tester) (u : URL),
          applyOptions opts defaultTester = .ok t → t.URL ≠ "" →
          urlParse t.URL = .ok u → u.host ≠ "" → t.requests < 1 →
          NewTester opts = .error (.errInvalidRequests t.requests))
      ∧ (∀ (opts : List OptionFn) (t : Tester),
          NewTester opts = .ok t →
          t.URL ≠ "" ∧ (∃ u, urlParse t.URL = .ok u ∧ u.host ≠ "")
            ∧ 1 ≤ t.requests) := by
  refine ⟨?_, ?_, ?_, ?_, ?_, ?_⟩
  · intro rest
    constructor <;> simp [NewTester, applyOptions, WithStdout, WithStderr]
  · intro opts t h1 h2
    simp only [NewTester, h1, h2, if_true]
  · intro opts t e h1 h2 h3
    simp only [NewTester, h1, h3, if_neg h2]
  · intro opts t u h1 h2 h3 h4
    simp only [NewTester, h1, h3, h4, if_neg h2, if_true]
  · intro opts t u h1 h2 h3 h4 h5
    simp only [NewTester, h1, h3, h5, if_neg h2, if_neg h4, if_true]
  · intro opts t h
    unfold NewTester at h
    cases happ : applyOptions opts defaultTester with
    | error e => rw [happ] at h; exact absurd h (by simp)
    | ok t0 =>
      rw [happ] at h
      dsimp only [] at h
      by_cases hurl : t0.URL = ""
      · simp [hurl] at h
      · rw [if_neg hurl] at h
        cases hup : urlParse t0.URL with
        | error e => rw [hup] at h; exact absurd h (by simp)
        | ok u =>
          rw [hup] at h
          dsimp only [] at h
          by_cases hhost : u.host = ""
          · simp [hhost] at h
          · rw [if_neg hhost] at h
            by_cases hreq : t0.requests < 1
            · simp [hreq] at h
            · rw [if_neg hreq] at h
              have ht : t0 = t := by
                injection h
              subst ht
              exact ⟨hurl, ⟨u, hup, hhost⟩, by omega⟩

/-- Witness for the amended C7: with a request count of zero and no URL
configured, the missing-URL check fires before the request-count check. -/
theorem newTester_validation_order_witness :
    applyOptions [WithRequests 0] defaultTester
        = .ok { defaultTester with requests := 0 }
      ∧ ({ defaultTester with requests := 0 } : Tester).URL = ""
      ∧ NewTester [WithRequests 0] = .error .errNoURL :=
  ⟨rfl, rfl, newTester_validation_order.2.1 [WithRequests 0]
    { defaultTester with requests := 0 } rfl rfl⟩

end Bench
